import Mathlib

/-!
Verification of the batch LUT applicator (`lut_batch.py`, `dji_lut_batch.py`).

The Python source is shallowly embedded: strings are `List Char`, machine
floats are exact rationals (`ℚ`; the source's numeric comparisons are
modelled exactly), Python `None`-or-value results are `Option`, and the
only stateful component (the per-job progress tracking loop) is explicit
state passing over a `ProgressState` record.
-/

namespace LutBatch

/-! ## Encoder capability detection (`detect_hardware_encoders`) -/

/-- record of availability flags, mirroring the Python dict
`encoders = dict nvidia amd qsv videotoolbox`, each initially `False`. -/
structure Encoders where
  nvidia : Bool
  amd : Bool
  qsv : Bool
  videotoolbox : Bool
deriving DecidableEq, Repr

/-- dict value before (and, on probe failure, after) the probe:
every flag `False`. -/
def noEncoders : Encoders := ⟨false, false, false, false⟩

/-- token searched for in the probe output: " h264_nvenc " with the
surrounding spaces, as in the source's substring test. -/
def tokNvenc : List Char := " h264_nvenc ".toList

/-- token " h264_amf " with surrounding spaces. -/
def tokAmf : List Char := " h264_amf ".toList

/-- token " h264_qsv " with surrounding spaces. -/
def tokQsv : List Char := " h264_qsv ".toList

/-- token " h264_videotoolbox " with surrounding spaces. -/
def tokVt : List Char := " h264_videotoolbox ".toList

/-- embedding of `detect_hardware_encoders`.  The argument is the outcome
of the `ffmpeg -encoders -hide_banner` probe: `none` when invoking or
reading it raises (the bare `except:` path), `some output` with its text
otherwise.  Each flag is the Python substring test `" tok " in output`;
on failure the untouched all-`False` dict is returned. -/
def detect_hardware_encoders (probe : Option (List Char)) : Encoders :=
  match probe with
  | none => noEncoders
  | some output =>
    { nvidia := decide (tokNvenc <:+: output)
      amd := decide (tokAmf <:+: output)
      qsv := decide (tokQsv <:+: output)
      videotoolbox := decide (tokVt <:+: output) }

/-! ## Backend selection (`process_directory`, lines 255-274) -/

/-- value of the `hw_encoder` variable after the selection cascade;
`software` stands for the Python `None` (libx264 path). -/
inductive Backend where
  | nvidia
  | amd
  | videotoolbox
  | qsv
  | software
deriving DecidableEq, Repr

/-- embedding of the selection cascade at the top of `process_directory`:
`hw_encoder = None`; if `use_gpu`, test `nvidia`, then `amd`, then
`videotoolbox`, then `qsv`, first hit wins. -/
def selectEncoder (use_gpu : Bool) (enc : Encoders) : Backend :=
  if use_gpu then
    if enc.nvidia then Backend.nvidia
    else if enc.amd then Backend.amd
    else if enc.videotoolbox then Backend.videotoolbox
    else if enc.qsv then Backend.qsv
    else Backend.software
  else Backend.software

/-- the fixed priority order of the cascade, as data. -/
def priorityOrder : List Backend :=
  [Backend.nvidia, Backend.amd, Backend.videotoolbox, Backend.qsv]

/-- availability of a backend in a detected flag set; the software
backend is always available. -/
def availIn (enc : Encoders) : Backend → Bool
  | Backend.nvidia => enc.nvidia
  | Backend.amd => enc.amd
  | Backend.videotoolbox => enc.videotoolbox
  | Backend.qsv => enc.qsv
  | Backend.software => true

/-! ## Python string and number primitives

Helpers embedding the Python primitives the progress loop relies on:
`str.startswith`, `str.strip`, `str.split`, `int(...)` and `float(...)`.
Numerals are modelled over their ASCII forms (the progress protocol is
ASCII); `int` and `float` accept an optional sign and single underscores
between digits, exactly as Python does, and `float` additionally accepts
`inf`, `infinity` and `nan` case-insensitively.  Values are exact
(`ℚ` instead of IEEE doubles). -/

/-- test that `pat` is a leading segment of `s` (Python `s.startswith(pat)`). -/
def strStarts : List Char → List Char → Bool
  | [], _ => true
  | _ :: _, [] => false
  | a :: as, b :: bs => a = b && strStarts as bs

/-- whitespace stripped by Python `str.strip()`. -/
def pyIsSpace (c : Char) : Bool :=
  c = ' ' || c = '\t' || c = '\n' || c = '\r' || c = '\x0b' || c = '\x0c'

/-- embedding of `str.strip()`: drop whitespace from both ends. -/
def pyStrip (s : List Char) : List Char :=
  ((s.dropWhile pyIsSpace).reverse.dropWhile pyIsSpace).reverse

/-- validity of the tail of a Python numeral: digits, with a single
underscore allowed only between two digits. -/
def validNumTail : List Char → Bool
  | [] => true
  | ['_'] => false
  | '_' :: d :: rest => d.isDigit && validNumTail rest
  | c :: rest => c.isDigit && validNumTail rest

/-- validity of an unsigned Python numeral: nonempty, leading digit,
then `validNumTail`. -/
def validUDigits : List Char → Bool
  | [] => false
  | c :: rest => c.isDigit && validNumTail rest

/-- numeric value of an unsigned numeral, skipping underscores. -/
def uDigitsVal (s : List Char) : ℕ :=
  s.foldl (fun acc c => if c = '_' then acc else acc * 10 + (c.toNat - 48)) 0

/-- parse an unsigned run of digits (with underscores), or fail. -/
def parseUDigits (s : List Char) : Option ℕ :=
  if validUDigits s then some (uDigitsVal s) else none

/-- embedding of Python `int(s)` on an already-stripped string: optional
sign, then digits; any other shape raises `ValueError`, modelled as
`none`. -/
def pyIntOfStr : List Char → Option ℤ
  | '+' :: rest => (parseUDigits rest).map (fun n => (n : ℤ))
  | '-' :: rest => (parseUDigits rest).map (fun n => -(n : ℤ))
  | s => (parseUDigits s).map (fun n => (n : ℤ))

/-- result of a successful Python `float(s)`: a finite value (exact in
this model), an infinity, or a NaN. -/
inductive PyFloat where
  | finite (q : ℚ)
  | inf
  | neginf
  | nan
deriving DecidableEq, Repr

/-- split a string at the first character satisfying `p` (the separator
is dropped); `none` when no character matches. -/
def breakAt (p : Char → Bool) : List Char → Option (List Char × List Char)
  | [] => none
  | c :: rest =>
    if p c then some ([], rest)
    else (breakAt p rest).map (fun q => (c :: q.1, q.2))

/-- count of actual digits in a digit run (underscores excluded). -/
def digitCount (s : List Char) : ℕ := (s.filter (fun c => c ≠ '_')).length

/-- parse the mantissa of a Python float literal: digits, optionally with
one decimal point on either side of digits. -/
def parseMantissa (s : List Char) : Option ℚ :=
  match breakAt (fun c => c = '.') s with
  | none => (parseUDigits s).map (fun n => (n : ℚ))
  | some (a, b) =>
    if b.any (fun c => c = '.') then none
    else
      match a, b with
      | [], [] => none
      | [], _ => (parseUDigits b).map (fun n => (n : ℚ) / 10 ^ digitCount b)
      | _, [] => (parseUDigits a).map (fun n => (n : ℚ))
      | _, _ =>
        match parseUDigits a, parseUDigits b with
        | some i, some f => some ((i : ℚ) + (f : ℚ) / 10 ^ digitCount b)
        | _, _ => none

/-- parse the numeric (non-special) body of a Python float literal:
mantissa with optional `e`/`E` exponent. -/
def pyFloatNum (s : List Char) : Option ℚ :=
  match breakAt (fun c => c = 'e' || c = 'E') s with
  | none => parseMantissa s
  | some (m, e) =>
    match parseMantissa m, pyIntOfStr e with
    | some q, some ex => some (q * (10 : ℚ) ^ ex)
    | _, _ => none

/-- embedding of Python `float(s)` on an already-stripped string:
optional sign, then a numeral or one of the case-insensitive words
`inf`, `infinity`, `nan`; anything else raises `ValueError` (`none`). -/
def pyFloatOfStr (s : List Char) : Option PyFloat :=
  let signed : Bool × List Char :=
    match s with
    | '+' :: r => (false, r)
    | '-' :: r => (true, r)
    | r => (false, r)
  let low := signed.2.map Char.toLower
  if low = "inf".toList || low = "infinity".toList then
    some (if signed.1 then PyFloat.neginf else PyFloat.inf)
  else if low = "nan".toList then some PyFloat.nan
  else
    (pyFloatNum signed.2).map (fun q => PyFloat.finite (if signed.1 then -q else q))

/-! ## Per-job progress tracking (`apply_lut_to_video`, lines 142-177)

The loop variables `current_time`, `frame_count`, `current_fps` form the
job's progress snapshot.  `current_time` and `frame_count` start at `0`;
`current_fps` is unassigned until an `fps=` line arrives, modelled as an
`Option` that starts `none`. -/

/-- snapshot state mutated by the progress-reading loop. -/
structure ProgressState where
  current_time : ℚ
  frame_count : ℤ
  current_fps : Option PyFloat
deriving DecidableEq, Repr

/-- loop-variable values just before the first line is read. -/
def initState : ProgressState := ⟨0, 0, none⟩

/-- prefix tested by `line.startswith` for the media-time key. -/
def keyOutTime : List Char := "out_time_ms=".toList

/-- prefix tested for the frame-counter key. -/
def keyFrame : List Char := "frame=".toList

/-- prefix tested for the fps key. -/
def keyFps : List Char := "fps=".toList

/-- literal compared against the stripped payload. -/
def litNA : List Char := "N/A".toList

/-- payload extraction `line.split("=")[1]`: the element at index 1 of
the split, `none` when the split has fewer than two pieces (Python
`IndexError`). -/
def secondPiece (line : List Char) : Option (List Char) :=
  (line.splitOn '=').get? 1

/-- embedding of the line-dispatch in the progress loop: an
`out_time_ms=` line updates `current_time` (payload ÷ 1,000,000), a
`frame=` line updates `frame_count`, an `fps=` line updates
`current_fps`; the `N/A` payload leaves the state untouched; a failed
`int` parse is swallowed (`pass`) for the first two keys but sets
`current_fps = 0` for the fps key, exactly as the source's handlers do;
every other line is ignored. -/
def parseLine (st : ProgressState) (line : List Char) : ProgressState :=
  if strStarts keyOutTime line then
    match secondPiece line with
    | none => st
    | some raw =>
      let s := pyStrip raw
      if s = litNA then st
      else
        match pyIntOfStr s with
        | none => st
        | some n => { st with current_time := (n : ℚ) / 1000000 }
  else if strStarts keyFrame line then
    match secondPiece line with
    | none => st
    | some raw =>
      let s := pyStrip raw
      if s = litNA then st
      else
        match pyIntOfStr s with
        | none => st
        | some n => { st with frame_count := n }
  else if strStarts keyFps line then
    match secondPiece line with
    | none => { st with current_fps := some (PyFloat.finite 0) }
    | some raw =>
      let s := pyStrip raw
      if s = litNA then st
      else
        match pyFloatOfStr s with
        | none => { st with current_fps := some (PyFloat.finite 0) }
        | some v => { st with current_fps := some v }
  else st

/-- payload-failure test for an integer-valued key line: the index-1
piece is missing, or strips to `N/A`, or is rejected by `int(...)`. -/
def intPayloadFails (l : List Char) : Bool :=
  match secondPiece l with
  | none => true
  | some raw => (pyStrip raw == litNA) || (pyIntOfStr (pyStrip raw)).isNone

/-- test that the fps line's payload strips to the literal `N/A`. -/
def fpsPayloadNA (l : List Char) : Bool :=
  match secondPiece l with
  | none => false
  | some raw => pyStrip raw == litNA

/-- test that the fps line's payload is malformed: missing, or not `N/A`
yet rejected by `float(...)`. -/
def fpsPayloadMalformed (l : List Char) : Bool :=
  match secondPiece l with
  | none => true
  | some raw => (!(pyStrip raw == litNA)) && (pyFloatOfStr (pyStrip raw)).isNone

/-! ## Percent-complete computation (`apply_lut_to_video`, lines 185-187) -/

/-- embedding of Python `int(...)` applied to a float: truncation toward
zero. -/
def pyTruncFloat (x : ℚ) : ℤ := if 0 ≤ x then ⌊x⌋ else ⌈x⌉

/-- embedding of `progress = min(100, int(current_time / duration * 100))`,
computed when `duration > 0` and `current_time > 0`. -/
def progressPct (current_time duration : ℚ) : ℤ :=
  min 100 (pyTruncFloat (current_time / duration * 100))

/-! ## Output-path derivation (`apply_lut_to_video`, lines 44-46) -/

/-- index of the last occurrence of `c` (Python `str.rfind`), `none`
when absent. -/
def lastIdxOf (c : Char) : List Char → Option ℕ
  | [] => none
  | a :: as =>
    match lastIdxOf c as with
    | some i => some (i + 1)
    | none => if a = c then some 0 else none

/-- embedding of `os.path.basename` (posix): the segment after the last
`/`. -/
def pyBasename (p : List Char) : List Char :=
  match lastIdxOf '/' p with
  | none => p
  | some i => p.drop (i + 1)

/-- embedding of `os.path.splitext` on a basename (the source applies it
to `video_name`, which contains no `/`): split at the last dot, unless
every character before that dot is itself a dot. -/
def splitext (s : List Char) : List Char × List Char :=
  match lastIdxOf '.' s with
  | none => (s, [])
  | some i =>
    if (s.take i).all (fun c => c = '.') then (s, [])
    else (s.take i, s.drop i)

/-- embedding of `os.path.join` (posix, two components): an absolute
second component wins; otherwise concatenate, inserting `/` unless the
first part is empty or already ends in `/`. -/
def pyJoin (a b : List Char) : List Char :=
  if strStarts ['/'] b then b
  else if a.isEmpty || a.getLast? = some '/' then a ++ b
  else a ++ '/' :: b

/-- suffix inserted before the extension of every output file. -/
def lutSuffix : List Char := "_LUT".toList

/-- embedding of the output-path computation: basename, split off the
extension, insert `_LUT`, and join onto the output directory (which the
caller sets to the input directory). -/
def mkOutputPath (outputDir videoPath : List Char) : List Char :=
  let vn := pyBasename videoPath
  let ne := splitext vn
  pyJoin outputDir (ne.1 ++ lutSuffix ++ ne.2)

/-! ## File discovery (`process_directory`, lines 276-286) -/

/-- test that `suf` is a trailing segment of `s` (the semantics of a
`*suf` glob pattern on a posix directory entry, which is case-sensitive
and does match leading-dot files). -/
def strEnds (suf s : List Char) : Bool := strStarts suf.reverse s.reverse

/-- list of the supported extensions, as written in the source. -/
def videoExtensions : List (List Char) :=
  [".mp4".toList, ".mov".toList, ".avi".toList, ".mkv".toList]

/-- files of the directory matched by the glob pattern `*` ++ `e`. -/
def globExt (files : List (List Char)) (e : List Char) : List (List Char) :=
  files.filter (fun f => strEnds e f)

/-- embedding of the discovery loop: for each extension, append the
matches of the lowercase pattern, then of the uppercase pattern
(`ext.upper()`). -/
def discover (files : List (List Char)) : List (List Char) :=
  videoExtensions.foldl
    (fun acc e => acc ++ globExt files e ++ globExt files (e.map Char.toUpper)) []

/-! ## Videotoolbox profile (`apply_lut_to_video`, lines 95-101) -/

/-- embedding of `max(1, min(100, (51-crf)*2))`. -/
def vtQuality (crf : ℤ) : ℤ := max 1 (min 100 ((51 - crf) * 2))

/-- decimal rendering of an integer (Python `str(...)`). -/
def pyStr (n : ℤ) : List Char := (toString n).toList

/-- parameter list appended for the videotoolbox backend. -/
def vtArgs (crf : ℤ) : List (List Char) :=
  ["-c:v".toList, "h264_videotoolbox".toList,
   "-q:v".toList, pyStr (vtQuality crf),
   "-allow_sw".toList, "1".toList]

/-! ## Worker count (`process_directory`, lines 299-303) -/

/-- embedding of the worker-count computation: the `-t` argument when
given, else `os.cpu_count()`, then capped by the file count. -/
def workerCount (maxWorkersArg : Option ℤ) (cpuCount totalFiles : ℤ) : ℤ :=
  min (maxWorkersArg.getD cpuCount) totalFiles

/-! ## Job completion recording (`apply_lut_to_video` tail, `process_video`) -/

/-- embedding of the tail of `apply_lut_to_video` once the subprocess
has exited: on a non-zero code the stderr text is read and `None` is
returned, otherwise the output path; the pair is (returned value,
captured stderr). -/
def applyLutOutcome (returnCode : ℤ) (outputDir videoPath errText : List Char) :
    Option (List Char) × Option (List Char) :=
  if returnCode ≠ 0 then (none, some errText)
  else (some (mkOutputPath outputDir videoPath), none)

/-- truthiness of `output_file` in `process_video`: `None` and the empty
string are falsy. -/
def pyTruthy : Option (List Char) → Bool
  | none => false
  | some s => !s.isEmpty

/-- one finished job as seen by `process_video`: the input path and the
value returned by `apply_lut_to_video`. -/
structure JobDone where
  input : List Char
  result : Option (List Char)

/-- embedding of the append step of `process_video`: a truthy result
joins `processed_files`, anything else puts the input path on
`failed_files`. -/
def recordJob (st : List (List Char) × List (List Char)) (j : JobDone) :
    List (List Char) × List (List Char) :=
  if pyTruthy j.result then (st.1 ++ [j.result.getD []], st.2)
  else (st.1, st.2 ++ [j.input])

/-- embedding of the locked completion sections of `process_video`, in
the order jobs finish: each finishing job first renders the summary line
from the CURRENT list lengths and only then appends itself via
`recordJob`.  Returns the rendered (completed, failed) count pairs in
order, with the final lists. -/
def runJobs (st : List (List Char) × List (List Char)) :
    List JobDone → List (ℕ × ℕ) × (List (List Char) × List (List Char))
  | [] => ([], st)
  | j :: js =>
    let rendered := (st.1.length, st.2.length)
    let rest := runJobs (recordJob st j) js
    (rendered :: rest.1, rest.2)

/-! ## Helper lemmas -/

theorem selectEncoder_eq_find (g : Bool) (e : Encoders) :
    selectEncoder g e =
      if g then (priorityOrder.find? (availIn e)).getD Backend.software
      else Backend.software := by
  cases e with
  | mk n a q v => cases g <;> cases n <;> cases a <;> cases q <;> cases v <;> rfl

/-! ## C1 -/

/-- C1: for every capability-probe outcome, the batch picks exactly one
backend: the first available one in the fixed priority order
nvidia > amd > videotoolbox > qsv, software when no hardware backend is
available; software whenever hardware use is disabled.  The choice
depends on the probe text only through the detected flag set (the
right-hand side is a pure function of that set), so it is deterministic
and independent of the probe output's ordering. -/
theorem backend_selection_priority (g : Bool) (probe : Option (List Char)) :
    selectEncoder g (detect_hardware_encoders probe) =
      if g then
        ((priorityOrder.find? (availIn (detect_hardware_encoders probe))).getD
          Backend.software)
      else Backend.software :=
  selectEncoder_eq_find g _

/-! ## C9 -/

/-- C9: capability detection reports a backend available exactly when
its space-surrounded encoder token occurs in the probe's output; a probe
failure yields the all-unavailable set instead of an error, which forces
the software backend whether or not hardware use is enabled. -/
theorem detect_encoders_spec (out : List Char) :
    ((detect_hardware_encoders (some out)).nvidia = true ↔ tokNvenc <:+: out) ∧
    ((detect_hardware_encoders (some out)).amd = true ↔ tokAmf <:+: out) ∧
    ((detect_hardware_encoders (some out)).qsv = true ↔ tokQsv <:+: out) ∧
    ((detect_hardware_encoders (some out)).videotoolbox = true ↔ tokVt <:+: out) ∧
    detect_hardware_encoders none = noEncoders ∧
    (∀ g : Bool, selectEncoder g (detect_hardware_encoders none) = Backend.software) := by
  refine ⟨?_, ?_, ?_, ?_, rfl, ?_⟩
  · simp [detect_hardware_encoders]
  · simp [detect_hardware_encoders]
  · simp [detect_hardware_encoders]
  · simp [detect_hardware_encoders]
  · intro g; cases g <;> rfl

/-! ## C2 -/

theorem outTime_not_of_frame (l : List Char) (h : strStarts keyFrame l = true) :
    strStarts keyOutTime l = false := by
  match l with
  | [] => simp [keyFrame, strStarts] at h
  | c :: cs =>
    simp only [keyFrame, String.toList, strStarts, Bool.and_eq_true,
      decide_eq_true_eq] at h
    rw [← h.1]
    simp [keyOutTime, strStarts]

theorem outTime_not_of_fps (l : List Char) (h : strStarts keyFps l = true) :
    strStarts keyOutTime l = false := by
  match l with
  | [] => simp [keyFps, strStarts] at h
  | c :: cs =>
    simp only [keyFps, String.toList, strStarts, Bool.and_eq_true,
      decide_eq_true_eq] at h
    rw [← h.1]
    simp [keyOutTime, strStarts]

theorem frame_not_of_fps (l : List Char) (h : strStarts keyFps l = true) :
    strStarts keyFrame l = false := by
  match l with
  | [] => simp [keyFps, strStarts] at h
  | [c] => simp [keyFps, strStarts] at h
  | c :: d :: cs =>
    simp only [keyFps, String.toList, strStarts, Bool.and_eq_true,
      decide_eq_true_eq] at h
    obtain ⟨h1, h2, _⟩ := h
    rw [← h1, ← h2]
    simp [keyFrame, strStarts]

/-- C2 counterexample: a malformed fps payload does not leave the
instantaneous-fps field at its prior value — after `fps=5` the line
`fps=abc` resets `current_fps` from 5 to 0 (the source's handler runs
`current_fps = 0` instead of `pass`), refuting the claim that every
snapshot field retains its prior value on an unparseable payload. -/
theorem fps_not_retained_cex :
    fpsPayloadMalformed ("fps=abc\n".toList) = true ∧
    (parseLine (parseLine initState ("fps=5\n".toList)) ("fps=abc\n".toList)).current_fps ≠
      (parseLine initState ("fps=5\n".toList)).current_fps := by
  decide

/-- C2 amended: the progress loop never raises (its step is the total
function `parseLine`), and on a payload that is `N/A` or fails to parse
the snapshot is left unchanged for `out_time_ms=` and `frame=` lines and
for `fps=N/A`; a malformed (non-`N/A`) fps payload instead resets
`current_fps` to 0; empty lines, lines without the keys, and all other
lines leave the snapshot unchanged. -/
theorem progress_line_retention (st : ProgressState) (l : List Char) :
    (strStarts keyOutTime l = true → intPayloadFails l = true →
      parseLine st l = st) ∧
    (strStarts keyFrame l = true → intPayloadFails l = true →
      parseLine st l = st) ∧
    (strStarts keyFps l = true → fpsPayloadNA l = true →
      parseLine st l = st) ∧
    (strStarts keyFps l = true → fpsPayloadMalformed l = true →
      parseLine st l = { st with current_fps := some (PyFloat.finite 0) }) ∧
    (strStarts keyOutTime l = false → strStarts keyFrame l = false →
      strStarts keyFps l = false → parseLine st l = st) := by
  refine ⟨?_, ?_, ?_, ?_, ?_⟩
  · intro h1 h2
    simp only [parseLine, h1, if_true]
    rcases hsp : secondPiece l with _ | raw
    · simp
    · simp only [intPayloadFails, hsp, Bool.or_eq_true, beq_iff_eq,
        Option.isNone_iff_eq_none] at h2
      rcases h2 with hna | hfail
      · simp [hna]
      · by_cases hna : pyStrip raw = litNA
        · simp [hna]
        · simp [hna, hfail]
  · intro h1 h2
    simp only [parseLine, outTime_not_of_frame l h1, h1, if_true,
      Bool.false_eq_true, if_false]
    rcases hsp : secondPiece l with _ | raw
    · simp
    · simp only [intPayloadFails, hsp, Bool.or_eq_true, beq_iff_eq,
        Option.isNone_iff_eq_none] at h2
      rcases h2 with hna | hfail
      · simp [hna]
      · by_cases hna : pyStrip raw = litNA
        · simp [hna]
        · simp [hna, hfail]
  · intro h1 h2
    simp only [parseLine, outTime_not_of_fps l h1, frame_not_of_fps l h1, h1,
      if_true, Bool.false_eq_true, if_false]
    rcases hsp : secondPiece l with _ | raw
    · simp [fpsPayloadNA, hsp] at h2
    · simp only [fpsPayloadNA, hsp, beq_iff_eq] at h2
      simp [h2]
  · intro h1 h2
    simp only [parseLine, outTime_not_of_fps l h1, frame_not_of_fps l h1, h1,
      if_true, Bool.false_eq_true, if_false]
    rcases hsp : secondPiece l with _ | raw
    · simp
    · simp only [fpsPayloadMalformed, hsp, Bool.and_eq_true, beq_iff_eq,
        Bool.not_eq_true', beq_eq_false_iff_ne, ne_eq,
        Option.isNone_iff_eq_none] at h2
      simp [h2.1, h2.2]
  · intro h1 h2 h3
    simp [parseLine, h1, h2, h3]

/-- C2 amended, witness: the out-time conjunct applied to the malformed
line `out_time_ms=xyz` at the initial snapshot. -/
theorem progress_line_retention_witness :
    strStarts keyOutTime ("out_time_ms=xyz\n".toList) = true ∧
    intPayloadFails ("out_time_ms=xyz\n".toList) = true ∧
    parseLine initState ("out_time_ms=xyz\n".toList) = initState :=
  ⟨by decide, by decide,
    (progress_line_retention initState ("out_time_ms=xyz\n".toList)).1
      (by decide) (by decide)⟩

/-! ## C3 -/

/-- C3 counterexample: the progress loop trusts whatever `out_time_ms`
values arrive, so with a known duration of 100 seconds the line sequence
`out_time_ms=50000000`, `out_time_ms=10000000` displays 50 percent and
then 10 percent — the displayed value is not monotonically
non-decreasing over every sequence of progress lines. -/
theorem progress_pct_nonmonotone_cex :
    (parseLine initState ("out_time_ms=50000000\n".toList)).current_time = 50 ∧
    (parseLine (parseLine initState ("out_time_ms=50000000\n".toList))
        ("out_time_ms=10000000\n".toList)).current_time = 10 ∧
    progressPct 50 100 = 50 ∧ progressPct 10 100 = 10 ∧
    ¬ (progressPct 50 100 ≤ progressPct 10 100) := by
  have e1 : (parseLine initState ("out_time_ms=50000000\n".toList)).current_time
      = (((50000000 : ℕ) : ℤ) : ℚ) / 1000000 := rfl
  have e2 : (parseLine (parseLine initState ("out_time_ms=50000000\n".toList))
      ("out_time_ms=10000000\n".toList)).current_time
      = (((10000000 : ℕ) : ℤ) : ℚ) / 1000000 := rfl
  refine ⟨by rw [e1]; norm_num, by rw [e2]; norm_num, ?_, ?_, ?_⟩ <;>
    norm_num [progressPct, pyTruncFloat]

/-- C3 amended: whenever a positive duration is known and the elapsed
media time is positive, the displayed value equals
`min 100 ⌊elapsed / duration * 100⌋`, lies in `[0, 100]`, and is
monotonically non-decreasing in the elapsed media time — so the percent
sequence is non-decreasing provided the `out_time_ms` values themselves
never decrease, which the code does not enforce. -/
theorem progress_pct_spec (ct ct' d : ℚ) (hct : 0 < ct) (hd : 0 < d) :
    progressPct ct d = min 100 ⌊ct / d * 100⌋ ∧
    0 ≤ progressPct ct d ∧ progressPct ct d ≤ 100 ∧
    (ct ≤ ct' → progressPct ct d ≤ progressPct ct' d) := by
  have hx : (0 : ℚ) ≤ ct / d * 100 := by positivity
  have hfloor : pyTruncFloat (ct / d * 100) = ⌊ct / d * 100⌋ := by
    simp [pyTruncFloat, hx]
  refine ⟨by simp [progressPct, hfloor], ?_, min_le_left _ _, ?_⟩
  · refine le_min (by norm_num) ?_
    rw [hfloor]
    exact Int.floor_nonneg.mpr hx
  · intro hle
    have hct' : (0 : ℚ) < ct' := lt_of_lt_of_le hct hle
    have hx' : (0 : ℚ) ≤ ct' / d * 100 := by positivity
    have hfloor' : pyTruncFloat (ct' / d * 100) = ⌊ct' / d * 100⌋ := by
      simp [pyTruncFloat, hx']
    have hmul : ct / d * 100 ≤ ct' / d * 100 := by gcongr
    simp only [progressPct, hfloor, hfloor']
    exact min_le_min le_rfl (Int.floor_le_floor hmul)

/-- C3 amended, witness: the percent properties at elapsed time 1,
later elapsed time 2, duration 4. -/
theorem progress_pct_spec_witness :
    progressPct 1 4 = min 100 ⌊(1 : ℚ) / 4 * 100⌋ ∧
    0 ≤ progressPct 1 4 ∧ progressPct 1 4 ≤ 100 ∧
    progressPct 1 4 ≤ progressPct 2 4 := by
  obtain ⟨h1, h2, h3, h4⟩ := progress_pct_spec 1 2 4 (by norm_num) (by norm_num)
  exact ⟨h1, h2, h3, h4 (by norm_num)⟩

/-! ## C7 -/

/-- C7: for every CRF in `[0, 51]` the videotoolbox profile passes
`max(1, min(100, (51 - crf) * 2))` as its `-q:v` parameter, and that
value always lies in `[1, 100]`. -/
theorem vt_quality_spec (crf : ℤ) (h0 : 0 ≤ crf) (h51 : crf ≤ 51) :
    vtArgs crf = ["-c:v".toList, "h264_videotoolbox".toList,
      "-q:v".toList, pyStr (max 1 (min 100 ((51 - crf) * 2))),
      "-allow_sw".toList, "1".toList] ∧
    1 ≤ vtQuality crf ∧ vtQuality crf ≤ 100 :=
  ⟨rfl, le_max_left _ _, max_le (by norm_num) (min_le_left _ _)⟩

/-- C7 witness: the profile at the default CRF 23. -/
theorem vt_quality_spec_witness :
    vtArgs 23 = ["-c:v".toList, "h264_videotoolbox".toList,
      "-q:v".toList, pyStr (max 1 (min 100 ((51 - 23) * 2))),
      "-allow_sw".toList, "1".toList] ∧
    1 ≤ vtQuality 23 ∧ vtQuality 23 ≤ 100 :=
  vt_quality_spec 23 (by norm_num) (by norm_num)

/-! ## C8 -/

/-- C8 counterexample: the CLI accepts `-t 0` (the thread count is never
range-checked), and then `W = min(0, job-count) = 0` even with one
discovered job, refuting `1 ≤ W` for every accepted configuration. -/
theorem worker_count_zero_cex :
    workerCount (some 0) 8 1 = 0 ∧ ¬ (1 ≤ workerCount (some 0) 8 1) := by
  constructor <;> simp [workerCount]

/-- C8 amended: the effective worker count is
`min(requested-or-cpu-count, job-count)`; it is at least 1 whenever the
requested-or-cpu count and the job count are both at least 1, but a
configured thread count of zero or less is passed through unclamped and
yields `W ≤ 0`. -/
theorem worker_count_spec (req : Option ℤ) (cpu jobs : ℤ) :
    workerCount req cpu jobs = min (req.getD cpu) jobs ∧
    (1 ≤ req.getD cpu → 1 ≤ jobs → 1 ≤ workerCount req cpu jobs) ∧
    (∀ r : ℤ, req = some r → r ≤ 0 → workerCount req cpu jobs ≤ 0) := by
  refine ⟨rfl, fun h1 h2 => le_min h1 h2, ?_⟩
  intro r hr h0
  subst hr
  simpa [workerCount] using le_trans (min_le_left r jobs) h0

/-- C8 amended, witness: two requested threads, eight CPUs, three jobs. -/
theorem worker_count_spec_witness :
    workerCount (some 2) 8 3 = min ((some (2 : ℤ)).getD 8) 3 ∧
    1 ≤ workerCount (some 2) 8 3 :=
  ⟨(worker_count_spec (some 2) 8 3).1,
    (worker_count_spec (some 2) 8 3).2.1 (by norm_num) (by norm_num)⟩

/-! ## Path lemmas -/

theorem lastIdxOf_of_not_mem (c : Char) (l : List Char) (h : c ∉ l) :
    lastIdxOf c l = none := by
  induction l with
  | nil => rfl
  | cons a as ih =>
    have hne : a ≠ c := fun hac => h (hac ▸ List.mem_cons_self a as)
    have has : c ∉ as := fun hc => h (List.mem_cons_of_mem a hc)
    simp [lastIdxOf, ih has, hne]

theorem lastIdxOf_append_cons (c : Char) (xs ys : List Char) (h : c ∉ ys) :
    lastIdxOf c (xs ++ c :: ys) = some xs.length := by
  induction xs with
  | nil => simp [lastIdxOf, lastIdxOf_of_not_mem c ys h]
  | cons a xs ih => simp [lastIdxOf, ih]

theorem splitext_of_single_dot (stem tl : List Char) (hs : stem ≠ [])
    (hds : ('.' : Char) ∉ stem) (hdt : ('.' : Char) ∉ tl) :
    splitext (stem ++ '.' :: tl) = (stem, '.' :: tl) := by
  obtain ⟨x, hx⟩ := List.exists_mem_of_ne_nil stem hs
  have hidx := lastIdxOf_append_cons '.' stem tl hdt
  have hall : (stem ++ '.' :: tl).take stem.length = stem := List.take_left stem _
  have hnotall : ¬ ((stem ++ '.' :: tl).take stem.length).all (fun c => c = '.') = true := by
    rw [hall]
    intro hcontra
    rw [List.all_eq_true] at hcontra
    have hxdot : x = '.' := by simpa using hcontra x hx
    exact hds (hxdot ▸ hx)
  simp [splitext, hidx, hnotall, hall, List.drop_left]
  exact ⟨x, hx, fun hc => hds (hc ▸ hx)⟩

theorem strStarts_slash_mem (f : List Char) (h : strStarts ['/'] f = true) :
    ('/' : Char) ∈ f := by
  match f with
  | [] => simp [strStarts] at h
  | c :: cs =>
    simp only [strStarts, Bool.and_eq_true, decide_eq_true_eq] at h
    exact h.1 ▸ List.mem_cons_self c cs

theorem pyBasename_append_cons (a f : List Char) (h : ('/' : Char) ∉ f) :
    pyBasename (a ++ '/' :: f) = f := by
  simp only [pyBasename, lastIdxOf_append_cons '/' a f h]
  have : a ++ '/' :: f = (a ++ ['/']) ++ f := by simp
  rw [this, show a.length + 1 = (a ++ ['/']).length by simp, List.drop_left]

theorem pyBasename_join (dir f : List Char) (h : ('/' : Char) ∉ f) :
    pyBasename (pyJoin dir f) = f := by
  rw [pyJoin]
  by_cases h1 : strStarts ['/'] f = true
  · exact absurd (strStarts_slash_mem f h1) h
  · rw [if_neg h1]
    by_cases h2 : dir.isEmpty = true
    · rw [List.isEmpty_iff] at h2
      subst h2
      simp [pyBasename, lastIdxOf_of_not_mem '/' f h]
    · by_cases h3 : dir.getLast? = some '/'
      · rw [if_pos (by simp [h3])]
        have hne : dir ≠ [] := by
          intro hd; subst hd; simp at h3
        have hlast : dir.getLast hne = '/' := by
          rwa [List.getLast?_eq_getLast dir hne, Option.some_inj] at h3
        have hsplit : dir.dropLast ++ '/' :: f = dir ++ f := by
          rw [show ('/' : Char) :: f = ['/'] ++ f from rfl, ← List.append_assoc]
          rw [show dir.dropLast ++ ['/'] = dir from by
            conv_rhs => rw [← List.dropLast_append_getLast hne]
            rw [hlast]]
        rw [← hsplit]
        exact pyBasename_append_cons dir.dropLast f h
      · rw [if_neg (by simp [h2, h3])]
        exact pyBasename_append_cons dir f h

/-! ## C5 -/

/-- C5 counterexample: a file already carrying the `_LUT` suffix is NOT
excluded from discovery — a directory holding only `clip_LUT.mp4` still
selects it as an input, refuting the claimed reprocessing protection. -/
theorem lut_reselected_cex :
    "clip_LUT.mp4".toList ∈ discover ["clip_LUT.mp4".toList] := by
  decide

/-- C5 amended: processing an input file whose basename is
`stem.extension` (no slashes, a single dot) yields the output path
`stem_LUT.extension` joined onto the same directory; but LUT-suffixed
files are not excluded on a re-run: every directory entry ending in one
of the supported extensions — including `_LUT` outputs — is selected
again. -/
theorem output_naming_spec (dir stem tl : List Char) (hs : stem ≠ [])
    (hds : ('.' : Char) ∉ stem) (hss : ('/' : Char) ∉ stem)
    (hdt : ('.' : Char) ∉ tl) (hst : ('/' : Char) ∉ tl) :
    mkOutputPath dir (pyJoin dir (stem ++ '.' :: tl))
      = pyJoin dir (stem ++ lutSuffix ++ '.' :: tl) ∧
    (∀ (files : List (List Char)) (f e : List Char), e ∈ videoExtensions →
      f ∈ files → strEnds e f = true → f ∈ discover files) := by
  constructor
  · have hmem : ('/' : Char) ∉ stem ++ '.' :: tl := by
      intro hc
      rcases List.mem_append.mp hc with hc | hc
      · exact hss hc
      · rcases List.mem_cons.mp hc with hc | hc
        · exact absurd hc.symm (by decide)
        · exact hst hc
    rw [mkOutputPath, pyBasename_join dir _ hmem,
      splitext_of_single_dot stem tl hs hds hdt]
  · intro files f e he hf hends
    simp only [discover, videoExtensions, List.foldl] at *
    simp only [globExt, List.mem_append, List.mem_filter, List.nil_append]
    simp only [List.mem_cons, List.not_mem_nil, or_false] at he
    rcases he with he | he | he | he <;> subst he <;> tauto

/-- C5 amended, witness: the concrete file `clip.mp4` in directory `/d`,
and re-selection of `clip_LUT.mp4`. -/
theorem output_naming_spec_witness :
    mkOutputPath ("/d".toList) (pyJoin ("/d".toList) ("clip".toList ++ '.' :: "mp4".toList))
      = pyJoin ("/d".toList) ("clip".toList ++ lutSuffix ++ '.' :: "mp4".toList) ∧
    "clip_LUT.mp4".toList ∈ discover ["clip_LUT.mp4".toList, "other.mov".toList] :=
  ⟨(output_naming_spec ("/d".toList) ("clip".toList) ("mp4".toList)
      (by decide) (by decide) (by decide) (by decide) (by decide)).1,
    (output_naming_spec ("/d".toList) ("clip".toList) ("mp4".toList)
      (by decide) (by decide) (by decide) (by decide) (by decide)).2
      ["clip_LUT.mp4".toList, "other.mov".toList] ("clip_LUT.mp4".toList)
      (".mp4".toList) (by decide) (by decide) (by decide)⟩

/-! ## C6 -/

/-- C6 counterexample: the file `a.Mp4` has extension `.Mp4`, equal to
`.mp4` up to letter case, yet discovery does not select it — the globs
only cover the all-lowercase and all-uppercase spellings, which are
case-sensitive on a posix filesystem. -/
theorem mixed_case_not_discovered_cex :
    ((splitext ("a.Mp4".toList)).2.map Char.toLower) ∈ videoExtensions ∧
    "a.Mp4".toList ∉ discover ["a.Mp4".toList] := by
  decide

/-- C6 amended: discovery selects exactly the files of the directory
whose name ends in the all-lowercase or the all-uppercase spelling of
one of `.mp4 .mov .avi .mkv`; mixed-case extensions are not selected. -/
theorem discovery_extension_spec (files : List (List Char)) (f : List Char) :
    f ∈ discover files ↔
      f ∈ files ∧
        (strEnds (".mp4".toList) f = true ∨ strEnds (".MP4".toList) f = true ∨
         strEnds (".mov".toList) f = true ∨ strEnds (".MOV".toList) f = true ∨
         strEnds (".avi".toList) f = true ∨ strEnds (".AVI".toList) f = true ∨
         strEnds (".mkv".toList) f = true ∨ strEnds (".MKV".toList) f = true) := by
  have e1 : (".mp4".toList).map Char.toUpper = ".MP4".toList := rfl
  have e2 : (".mov".toList).map Char.toUpper = ".MOV".toList := rfl
  have e3 : (".avi".toList).map Char.toUpper = ".AVI".toList := rfl
  have e4 : (".mkv".toList).map Char.toUpper = ".MKV".toList := rfl
  simp only [discover, videoExtensions, List.foldl, e1, e2, e3, e4]
  simp only [globExt, List.mem_append, List.mem_filter, List.nil_append]
  tauto

/-! ## Job-recording lemmas -/

theorem lutSuffix_ne_nil : lutSuffix ≠ [] := by decide

theorem mkOutputPath_ne_nil (dir vp : List Char) : mkOutputPath dir vp ≠ [] := by
  rw [mkOutputPath, pyJoin]
  split
  · simp [List.append_eq_nil, lutSuffix_ne_nil]
  · split <;> simp [List.append_eq_nil, lutSuffix_ne_nil]

theorem recordJob_len (st : List (List Char) × List (List Char)) (j : JobDone) :
    (recordJob st j).1.length + (recordJob st j).2.length
      = st.1.length + st.2.length + 1 := by
  rw [recordJob]
  split <;> simp <;> omega

theorem runJobs_len (st : List (List Char) × List (List Char)) (jobs : List JobDone) :
    (runJobs st jobs).2.1.length + (runJobs st jobs).2.2.length
      = st.1.length + st.2.length + jobs.length := by
  induction jobs generalizing st with
  | nil => simp [runJobs]
  | cons j js ih =>
    simp only [runJobs, List.length_cons]
    rw [ih (recordJob st j), recordJob_len]
    omega

theorem runJobs_render_sum (st : List (List Char) × List (List Char))
    (jobs : List JobDone) (i : ℕ) (h : i < jobs.length) :
    ((runJobs st jobs).1.getD i (0, 0)).1 + ((runJobs st jobs).1.getD i (0, 0)).2
      = st.1.length + st.2.length + i := by
  induction jobs generalizing st i with
  | nil => simp at h
  | cons j js ih =>
    cases i with
    | zero => simp [runJobs]
    | succ k =>
      have hk : k < js.length := by simpa using h
      simp only [runJobs, List.getD_cons_succ]
      rw [ih (recordJob st j) k hk]
      have := recordJob_len st j
      omega

/-! ## C4 -/

/-- C4: `apply_lut_to_video` returns `None` exactly when the subprocess
exits non-zero (capturing stderr in that case) and the computed output
path exactly when it exits zero; the caller appends a `None` result to
the failed list and a path result to the processed list; and in any
completion order every job lands in exactly one of the two lists, so one
failure never stops the remaining jobs from reaching a terminal state. -/
theorem apply_lut_result_spec (rc : ℤ) (dir vp err : List Char) :
    ((applyLutOutcome rc dir vp err).1 = none ↔ rc ≠ 0) ∧
    ((applyLutOutcome rc dir vp err).1 = some (mkOutputPath dir vp) ↔ rc = 0) ∧
    (rc ≠ 0 → (applyLutOutcome rc dir vp err).2 = some err) ∧
    (∀ st input, recordJob st ⟨input, none⟩ = (st.1, st.2 ++ [input])) ∧
    (∀ st input, recordJob st ⟨input, some (mkOutputPath dir vp)⟩
        = (st.1 ++ [mkOutputPath dir vp], st.2)) ∧
    (∀ jobs : List JobDone,
      (runJobs ([], []) jobs).2.1.length + (runJobs ([], []) jobs).2.2.length
        = jobs.length) := by
  refine ⟨?_, ?_, ?_, ?_, ?_, ?_⟩
  · by_cases h : rc = 0 <;> simp [applyLutOutcome, h]
  · by_cases h : rc = 0 <;> simp [applyLutOutcome, h]
  · intro h; simp [applyLutOutcome, h]
  · intro st input; simp [recordJob, pyTruthy]
  · intro st input
    have hne : ¬ (mkOutputPath dir vp).isEmpty = true := by
      simpa [List.isEmpty_iff] using mkOutputPath_ne_nil dir vp
    simp [recordJob, pyTruthy, hne]
  · intro jobs; simpa using runJobs_len ([], []) jobs

/-- C4 witness: a failing exit code 1 and a succeeding exit code 0 on
the file `/d/clip.mp4`, with a two-job batch in which the first job
fails and the second still reaches the processed list. -/
theorem apply_lut_result_spec_witness :
    (applyLutOutcome 1 ("/d".toList) ("/d/clip.mp4".toList) ("boom".toList)).2
        = some ("boom".toList) ∧
    ((applyLutOutcome 0 ("/d".toList) ("/d/clip.mp4".toList) ("boom".toList)).1
        = some (mkOutputPath ("/d".toList) ("/d/clip.mp4".toList))) ∧
    (runJobs ([], []) [⟨"a.mp4".toList, none⟩, ⟨"b.mp4".toList, some ("b_LUT.mp4".toList)⟩]).2.1.length
        + (runJobs ([], []) [⟨"a.mp4".toList, none⟩, ⟨"b.mp4".toList, some ("b_LUT.mp4".toList)⟩]).2.2.length
      = 2 :=
  ⟨(apply_lut_result_spec 1 ("/d".toList) ("/d/clip.mp4".toList) ("boom".toList)).2.2.1
      (by norm_num),
    (apply_lut_result_spec 0 ("/d".toList) ("/d/clip.mp4".toList) ("boom".toList)).2.1.mpr rfl,
    (apply_lut_result_spec 0 ("/d".toList) ("/d/clip.mp4".toList) ("boom".toList)).2.2.2.2.2
      [⟨"a.mp4".toList, none⟩, ⟨"b.mp4".toList, some ("b_LUT.mp4".toList)⟩]⟩

/-! ## C10 -/

/-- C10: each finishing job renders the shared summary line from the
list lengths BEFORE appending itself, so the counts displayed at the
i-th completion sum to i — excluding the job that just finished; in
particular the summary rendered at the last completion sums to one less
than the job count, never the full totals, while the lists left for the
printed post-batch summary account for every job. -/
theorem summary_line_undercount (jobs : List JobDone) (hne : jobs ≠ []) :
    (∀ i, i < jobs.length →
      ((runJobs ([], []) jobs).1.getD i (0, 0)).1
        + ((runJobs ([], []) jobs).1.getD i (0, 0)).2 = i) ∧
    (((runJobs ([], []) jobs).1.getD (jobs.length - 1) (0, 0)).1
        + ((runJobs ([], []) jobs).1.getD (jobs.length - 1) (0, 0)).2
      = jobs.length - 1) ∧
    jobs.length - 1 < jobs.length ∧
    (runJobs ([], []) jobs).2.1.length + (runJobs ([], []) jobs).2.2.length
      = jobs.length := by
  have hlen : 0 < jobs.length := List.length_pos.mpr hne
  refine ⟨?_, ?_, by omega, ?_⟩
  · intro i hi
    simpa using runJobs_render_sum ([], []) jobs i hi
  · simpa using runJobs_render_sum ([], []) jobs (jobs.length - 1) (by omega)
  · simpa using runJobs_len ([], []) jobs

/-- C10 witness: a two-job batch; the summary rendered at the second
(final) completion sums to 1, not 2, while the final lists sum to 2. -/
theorem summary_line_undercount_witness :
    (((runJobs ([], []) [⟨"a.mp4".toList, none⟩, ⟨"b.mp4".toList, some ("b_LUT.mp4".toList)⟩]).1.getD 1 (0, 0)).1
        + ((runJobs ([], []) [⟨"a.mp4".toList, none⟩, ⟨"b.mp4".toList, some ("b_LUT.mp4".toList)⟩]).1.getD 1 (0, 0)).2
      = 1) ∧
    (runJobs ([], []) [⟨"a.mp4".toList, none⟩, ⟨"b.mp4".toList, some ("b_LUT.mp4".toList)⟩]).2.1.length
        + (runJobs ([], []) [⟨"a.mp4".toList, none⟩, ⟨"b.mp4".toList, some ("b_LUT.mp4".toList)⟩]).2.2.length
      = 2 :=
  ⟨(summary_line_undercount
      [⟨"a.mp4".toList, none⟩, ⟨"b.mp4".toList, some ("b_LUT.mp4".toList)⟩]
      (by simp)).2.1,
    (summary_line_undercount
      [⟨"a.mp4".toList, none⟩, ⟨"b.mp4".toList, some ("b_LUT.mp4".toList)⟩]
      (by simp)).2.2.2⟩

end LutBatch
